import Mathlib

/-!
Verification of the component runtime in `src/utils/Block.ts`
(yugld/middle.messenger.praktikum.yandex).

The development shallowly embeds the `Block` base class: JS values become an
inductive `Value`, JS objects become insertion-ordered association lists, the
props proxy target lives in an explicit heap of object references (so that
reference identity, used by the default `componentDidUpdate` hook, is
observable), and the lifecycle event bus is inlined.

The `EventBus` class is imported by `Block.ts` but its source is not part of
the repository snapshot; per the spec (section 4.1) `emit` invokes every
registered handler synchronously in registration order.  `Block` registers
exactly one handler per lifecycle event (`_registerEvents`), so emitting an
event is modelled as appending the event to an observable trace and running
that single handler.  This modelling of the bus follows the words of the
spec.
-/

/-- JS runtime values, as far as `Block.ts` inspects them.  `block` carries a
component identity; `objRef` is a reference into a heap of plain objects;
`func` is an opaque function token. -/
inductive Value where
  | str : String → Value
  | num : Int → Value
  | bool : Bool → Value
  | null : Value
  | undef : Value
  | func : Nat → Value
  | block : Nat → Value
  | arr : List Value → Value
  | objRef : Nat → Value
deriving Repr

/-- Model of the `value instanceof Block` test. -/
def Value.isBlock : Value → Bool
  | .block _ => true
  | _ => false

/-- JS truthiness, for the falsy checks in `setProps` and `compile`. -/
def Value.truthy : Value → Bool
  | .str s => s ≠ ""
  | .num n => n ≠ 0
  | .bool b => b
  | .null => false
  | .undef => false
  | .func _ => true
  | .block _ => true
  | .arr _ => true
  | .objRef _ => true

/-- JS string coercion as used by the template-literal concatenation in
`compile`.  Functions coerce to their source text in JS, which is modelled
opaquely; objects and component instances use the default object
`toString`. -/
def valueToString : Value → String
  | .str s => s
  | .num n => toString n
  | .bool b => cond b "true" "false"
  | .null => "null"
  | .undef => "undefined"
  | .func _ => "function"
  | .block _ => "[object Object]"
  | .objRef _ => "[object Object]"
  | .arr vs => String.intercalate "," (vs.attach.map (fun x => valueToString x.1))
termination_by v => sizeOf v
decreasing_by
  simp_wf
  have h := List.sizeOf_lt_of_mem x.2
  omega

/-- A JS object: insertion-ordered mapping from string keys to values. -/
abbrev Store := List (String × Value)

/-- Property lookup on an object (first binding; stores built by `storeSet`
keep keys unique). -/
def storeGet (st : Store) (k : String) : Option Value :=
  (st.find? (fun p => p.1 = k)).map (·.2)

/-- JS property assignment on a plain object: an existing key keeps its
position and gets the new value, a new key is appended at the end. -/
def storeSet : Store → String → Value → Store
  | [], k, v => [(k, v)]
  | (k1, v1) :: rest, k, v =>
      if k1 = k then (k, v) :: rest else (k1, v1) :: storeSet rest k v

/-- Membership test for a key of an object. -/
def storeHas (st : Store) (k : String) : Bool :=
  st.any (fun p => p.1 = k)

/-- The four lifecycle bus events of `Block.EVENTS`, recorded in an
observable trace.  `cdu` carries the two object references that the `set`
trap of the proxy passes to `flow:component-did-update`. -/
inductive Event where
  | init : Event
  | cdm : Event
  | cdu (oldRef newRef : Nat) : Event
  | render : Event
deriving Repr, DecidableEq

/-- Number of `flow:render` emissions in a trace. -/
def countRender (t : List Event) : Nat :=
  t.countP (fun e => match e with | .render => true | _ => false)

/-- Number of `flow:component-did-update` emissions in a trace. -/
def countCdu (t : List Event) : Nat :=
  t.countP (fun e => match e with | .cdu _ _ => true | _ => false)

/-- Number of `flow:component-did-mount` emissions in a trace. -/
def countCdm (t : List Event) : Nat :=
  t.countP (fun e => match e with | .cdm => true | _ => false)

/-- Observable state of one `Block` instance.

* `heap`: all plain objects allocated so far; `objRef` and `propsRef`
  index it.
* `propsRef`: reference to the proxy target (the `_meta.props` object).
* `element`: the current `_element` DOM node identity; `none` before the
  first render and whenever the render hook produced no root element.
* `renders`: how many times `_render` has run; it indexes the output
  stream of the render hook, since a render hook builds a fresh subtree on
  each call.
* `trace`: every bus event emitted so far, in order. -/
structure St where
  heap : List Store
  propsRef : Nat
  element : Option Nat
  renders : Nat
  trace : List Event
deriving Repr

/-- The customisable parts of a concrete `Block` subclass.

* `cdu`: the `componentDidUpdate` comparison hook; it receives the two
  object references and may inspect the heap.
* `renderRoots`: the root-element list of the `DocumentFragment` returned
  by the render hook on its i-th invocation (`firstElementChild` takes the
  head).
* `cdmHook`: the `componentDidMount` hook, an arbitrary state transformer
  (the default is a no-op). -/
structure Component where
  cdu : Nat → Nat → List Store → Bool
  renderRoots : Nat → List Nat
  cdmHook : St → St

/-- Default `componentDidUpdate`: the test `oldProps !== newProps`,
reference inequality of the two objects it receives. -/
def defaultCdu : Nat → Nat → List Store → Bool :=
  fun oldRef newRef _ => oldRef ≠ newRef

/-- Default `componentDidMount`: no-op. -/
def defaultCdm : St → St := id

/-- Model of `_render`, reached by emitting `flow:render`: run the render
hook, take `fragment.firstElementChild` (the head of the root list, `none`
when the fragment is empty), replace the previous element when one exists,
and store the new element.  The emission itself is recorded in the trace.
The DOM side effects of `_addEvents` and `_addClass` are not modelled; the
model covers props without a nonempty `classes` entry (the default), for
which `_render` never throws. -/
def emitRender (c : Component) (s : St) : St :=
  let s := { s with trace := s.trace ++ [Event.render] }
  let newElement := (c.renderRoots s.renders).head?
  { s with element := newElement, renders := s.renders + 1 }

/-- Emitting `flow:component-did-update`: record the event, run
`_componentDidUpdate`, which calls the comparison hook and emits
`flow:render` exactly when the hook returns true. -/
def emitCdu (c : Component) (s : St) (oldRef newRef : Nat) : St :=
  let s := { s with trace := s.trace ++ [Event.cdu oldRef newRef] }
  if c.cdu oldRef newRef s.heap then emitRender c s else s

/-- Model of the `set` trap of the props proxy, for one top-level key:
allocate the shallow snapshot of the target (a fresh reference), apply the
assignment to the target, then emit `flow:component-did-update` with the
pair (snapshot, target). -/
def proxySet (c : Component) (s : St) (k : String) (v : Value) : St :=
  let target := s.heap.getD s.propsRef []
  let oldRef := s.heap.length
  let heap := (s.heap ++ [target]).set s.propsRef (storeSet target k v)
  emitCdu c { s with heap := heap } oldRef s.propsRef

/-- Errors surfaced by the embedded operations. -/
inductive JsError where
  | invalidOperation : JsError
  | typeError : JsError
deriving Repr, DecidableEq

/-- Model of the `deleteProperty` trap of the props proxy: it throws before
touching the target, so no deletion ever reaches the store. -/
def proxyDelete (_target : Store) (_k : String) : Except JsError Store :=
  Except.error JsError.invalidOperation

/-- Model of `setProps`: return immediately on a nullish argument
(modelled as `none`); otherwise `Object.assign` copies every own key of the
partial into the props through the proxy in order, and afterwards
`flow:render` is emitted unconditionally. -/
def setProps (c : Component) (s : St) (nextProps : Option Store) : St :=
  match nextProps with
  | none => s
  | some partialProps =>
      let s := partialProps.foldl (fun st p => proxySet c st p.1 p.2) s
      emitRender c s

/-- Model of `dispatchComponentDidMount`: emit `flow:component-did-mount`;
its handler `_componentDidMount` runs the `componentDidMount` hook and then
emits `flow:render` unconditionally. -/
def dispatchComponentDidMount (c : Component) (s : St) : St :=
  emitRender c (c.cdmHook { s with trace := s.trace ++ [Event.cdm] })

/-- Model of `getContent`: returns the `element` accessor, i.e.
`_element`. -/
def getContent (s : St) : Option Nat := s.element

/-- JS member access on a possibly-null receiver: a `TypeError` when the
receiver is null (the postfix bang in the source is a compile-time
assertion only, erased at runtime). -/
def derefElement (x : Option Nat) : Except JsError Nat :=
  match x with
  | none => Except.error JsError.typeError
  | some e => Except.ok e

/-- Model of `show`, which sets the display style of the content node; the
observable outcome here is whether the member access on the result of
`getContent` succeeded.  (`show` is a Lean keyword, hence the suffix.) -/
def showB (s : St) : Except JsError Unit :=
  (derefElement (getContent s)).map (fun _ => ())

/-- Model of `hide`, which also dereferences the result of
`getContent`. -/
def hide (s : St) : Except JsError Unit :=
  (derefElement (getContent s)).map (fun _ => ())

/-- One iteration of the partition loop of `_getChildrenAndProps`, for one
bag entry over the accumulated (props, children) pair.  An array value is
assigned (whole) to the children map once per `Block` element it contains,
hence assigned iff it contains at least one `Block`, and otherwise the key
lands nowhere; a `Block` value goes to children; every other value goes to
props. -/
def routeStep (pc : Store × Store) (kv : String × Value) : Store × Store :=
  match kv.2 with
  | .arr vs =>
      if vs.any Value.isBlock then
        (pc.1, storeSet pc.2 kv.1 (.arr vs))
      else
        pc
  | .block b => (pc.1, storeSet pc.2 kv.1 (.block b))
  | v => (storeSet pc.1 kv.1 v, pc.2)

/-- Model of `_getChildrenAndProps`: partition the construction bag into
(props, children). -/
def getChildrenAndProps (bag : List (String × Value)) : Store × Store :=
  bag.foldl routeStep ([], [])

/-- Spec-side description of where one key of the construction bag
actually lands: a `Block` or an array containing at least one `Block`
lands (whole) in the children map, an array containing no `Block` is
dropped, and anything else lands in props; never in both maps. -/
def routedAs (props children : Store) (k : String) (v : Value) : Prop :=
  match v with
  | .arr vs =>
      if vs.any Value.isBlock then
        storeGet children k = some (.arr vs) ∧ storeHas props k = false
      else
        storeHas children k = false ∧ storeHas props k = false
  | .block b => storeGet children k = some (.block b) ∧ storeHas props k = false
  | _ => storeGet props k = some v ∧ storeHas children k = false

/-- Construction: split the bag, allocate the props object on the heap,
emit `init`; the `init` handler emits `flow:render`, so the first render
happens inside the constructor.  (`_init` also runs the empty
`_createResources` and the default no-op `init` hook.) -/
def construct (c : Component) (bag : List (String × Value)) : St :=
  let pc := getChildrenAndProps bag
  let s : St :=
    { heap := [pc.1], propsRef := 0, element := none, renders := 0,
      trace := [Event.init] }
  emitRender c s

/-! ## DOM model for `compile`

The `compile` method builds a stub string per child, hands the enriched
context to the template collaborator, parses the resulting markup, and
replaces each stub element (located by its data-id attribute) with the
rendered content of the corresponding child.  The template function and the
innerHTML parser are composed into one external collaborator mapping a
context to a parsed node forest. -/

/-- A parsed DOM node: an element with a tag, attributes and child nodes,
or a text node. -/
inductive HNode where
  | elem (tag : String) (attrs : List (String × String)) (kids : List HNode)
  | text (s : String)
deriving Repr

/-- All nodes of a forest in document (pre)order: each node, then its
subtree, then its right siblings. -/
def allNodes : List HNode → List HNode
  | [] => []
  | .elem t a kids :: rest => .elem t a kids :: (allNodes kids ++ allNodes rest)
  | .text s :: rest => .text s :: allNodes rest

/-- Whether a node itself carries the attribute data-id with the given
value (the selector test, non-recursive). -/
def selfHasDataId (id : String) : HNode → Bool
  | .elem _ attrs _ => attrs.any (fun p => p.1 == "data-id" && p.2 == id)
  | .text _ => false

/-- Number of nodes in the forest carrying the given data-id. -/
def countDataId (id : String) (frag : List HNode) : Nat :=
  (allNodes frag).countP (fun n => selfHasDataId id n)

/-- Whether a node is exactly the parsed form of a placeholder stub for the
given id: an empty div whose only attribute is the data-id. -/
def isStub (id : String) : HNode → Bool
  | .elem t attrs kids =>
      decide (t = "div") && decide (attrs = [("data-id", id)]) && kids.isEmpty
  | .text _ => false

/-- Every node of the forest carrying the given data-id is a placeholder
stub for it. -/
def onlyStubs (id : String) (frag : List HNode) : Bool :=
  (allNodes frag).all (fun n => !selfHasDataId id n || isStub id n)

/-- A node without any data-id attribute. -/
def hasNoDataIdAttr : HNode → Bool
  | .elem _ attrs _ => attrs.all (fun p => p.1 ≠ "data-id")
  | .text _ => true

/-- A forest none of whose nodes carries a data-id attribute (the expected
shape of rendered child content). -/
def dataIdFree (frag : List HNode) : Bool :=
  (allNodes frag).all hasNoDataIdAttr

/-- Model of `querySelector` for the data-id selector combined with
`replaceWith`: find the first node in document order carrying the data-id
and replace it (with its whole subtree) by the replacement node; return the
located stub together with the modified forest, or `none` when no node
matches. -/
def replaceFirst (id : String) (repl : HNode) : List HNode → Option (HNode × List HNode)
  | [] => none
  | n :: rest =>
    if selfHasDataId id n then some (n, repl :: rest)
    else
      match n with
      | .elem t a kids =>
        match replaceFirst id repl kids with
        | some (n0, kids2) => some (n0, .elem t a kids2 :: rest)
        | none =>
          match replaceFirst id repl rest with
          | some (n0, rest2) => some (n0, .elem t a kids :: rest2)
          | none => none
      | .text s =>
        match replaceFirst id repl rest with
        | some (n0, rest2) => some (n0, .text s :: rest2)
        | none => none

/-- One substitution step of `compile`: locate the stub of one child and
replace it with the rendered content of the child; a missing stub is
tolerated silently, leaving the forest unchanged. -/
def substOne (frag : List HNode) (id : String) (content : HNode) : List HNode :=
  match replaceFirst id content frag with
  | some pr => pr.2
  | none => frag

/-- A child component as `compile` sees it: its identifier and its current
rendered root node.  The source dereferences the content with a non-null
assertion; per the spec, a child is rendered inside its own constructor
before it can be passed to a parent, so the content is modelled as always
present. -/
structure ChildComp where
  cid : String
  content : HNode
deriving Repr

/-- A children-map entry: a single component or an ordered sequence
(the `Array.isArray` test in the source). -/
inductive ChildEntry where
  | one (c : ChildComp)
  | many (cs : List ChildComp)
deriving Repr

/-- The placeholder markup fragment for one child id, as interpolated by
`compile` (single quotes written via escapes). -/
def stubStr (id : String) : String :=
  "<div data-id=\x27" ++ id ++ "\x27></div>"

/-- Spec-side description of the stub text a sequence child should
contribute: one placeholder per element, concatenated in sequence order. -/
def stubsConcat : List ChildComp → String
  | [] => ""
  | c :: cs => stubStr c.cid ++ stubsConcat cs

/-- One step of the stub-building loop for a sequence element: when the
context holds nothing truthy under the key, assign the stub; otherwise
append the stub to the string coercion of the current value. -/
def appendStub (ctxStubs : Store) (name : String) (id : String) : Store :=
  match storeGet ctxStubs name with
  | none => storeSet ctxStubs name (.str (stubStr id))
  | some v =>
      if v.truthy then storeSet ctxStubs name (.str (valueToString v ++ stubStr id))
      else storeSet ctxStubs name (.str (stubStr id))

/-- First phase of `compile`: shallow-copy the context, then for every
child entry write placeholder markup under its key (single child:
overwrite; sequence: one stub per element, in order). -/
def buildStubs (children : List (String × ChildEntry)) (ctx : Store) : Store :=
  children.foldl
    (fun acc nc =>
      match nc.2 with
      | .many cs => cs.foldl (fun a c => appendStub a nc.1 c.cid) acc
      | .one c => storeSet acc nc.1 (.str (stubStr c.cid)))
    ctx

/-- Substitution for one sequence entry: each element in order. -/
def substSeq (cs : List ChildComp) (frag : List HNode) : List HNode :=
  cs.foldl (fun f c => substOne f c.cid c.content) frag

/-- Second phase of `compile`: for every child entry, replace its stub (or
stubs, for a sequence) in the parsed markup. -/
def substPass (children : List (String × ChildEntry)) (frag : List HNode) : List HNode :=
  children.foldl
    (fun f nc =>
      match nc.2 with
      | .many cs => substSeq cs f
      | .one c => substOne f c.cid c.content)
    frag

/-- Model of `compile`: build the stub context, run the template
collaborator (composed with the innerHTML parser) and substitute every
child stub.  The result is the content forest of the template element. -/
def compileB (children : List (String × ChildEntry))
    (tmpl : Store → List HNode) (ctx : Store) : List HNode :=
  substPass children (tmpl (buildStubs children ctx))

/-! ## Association-list lemmas -/

theorem storeGet_set_self (st : Store) (k : String) (v : Value) :
    storeGet (storeSet st k v) k = some v := by
  induction st with
  | nil => simp [storeSet, storeGet]
  | cons p rest ih =>
    obtain ⟨k1, v1⟩ := p
    by_cases h : k1 = k
    · subst h; simp [storeSet, storeGet]
    · simp only [storeSet, if_neg h]
      simpa [storeGet, List.find?_cons, h] using ih

theorem storeGet_set_other (st : Store) (k k2 : String) (v : Value)
    (h : k2 ≠ k) : storeGet (storeSet st k v) k2 = storeGet st k2 := by
  induction st with
  | nil => simp [storeSet, storeGet, Ne.symm h]
  | cons p rest ih =>
    obtain ⟨k1, v1⟩ := p
    by_cases h1 : k1 = k
    · subst h1
      simp [storeSet, storeGet, Ne.symm h]
    · by_cases h2 : k1 = k2
      · subst h2; simp [storeSet, h1, storeGet]
      · simp only [storeSet, if_neg h1]
        simpa [storeGet, List.find?_cons, h2] using ih

theorem storeHas_iff_get (st : Store) (k : String) :
    storeHas st k = true ↔ storeGet st k ≠ none := by
  induction st with
  | nil => simp [storeHas, storeGet]
  | cons p rest ih =>
    obtain ⟨k1, v1⟩ := p
    by_cases h : k1 = k
    · subst h; simp [storeHas, storeGet]
    · simp only [storeHas, storeGet, List.any_cons, List.find?_cons, h] at ih ⊢
      simp [h, ih]

/-! ## Trace-count lemmas for the lifecycle model -/

theorem countRender_append (a b : List Event) :
    countRender (a ++ b) = countRender a + countRender b := by
  simp [countRender, List.countP_append]

theorem countCdu_append (a b : List Event) :
    countCdu (a ++ b) = countCdu a + countCdu b := by
  simp [countCdu, List.countP_append]

theorem countCdm_append (a b : List Event) :
    countCdm (a ++ b) = countCdm a + countCdm b := by
  simp [countCdm, List.countP_append]

theorem emitRender_observe (c : Component) (s : St) :
    (emitRender c s).trace = s.trace ++ [Event.render]
    ∧ (emitRender c s).heap = s.heap
    ∧ (emitRender c s).propsRef = s.propsRef
    ∧ (emitRender c s).renders = s.renders + 1
    ∧ (emitRender c s).element = (c.renderRoots s.renders).head? := by
  refine ⟨rfl, rfl, rfl, rfl, rfl⟩

theorem emitCdu_observe (c : Component) (s : St) (o n : Nat) :
    (emitCdu c s o n).trace =
      s.trace ++ [Event.cdu o n]
        ++ (if c.cdu o n s.heap then [Event.render] else [])
    ∧ (emitCdu c s o n).heap = s.heap
    ∧ (emitCdu c s o n).propsRef = s.propsRef
    ∧ (emitCdu c s o n).renders =
        s.renders + (if c.cdu o n s.heap then 1 else 0)
    ∧ (emitCdu c s o n).element =
        (if c.cdu o n s.heap then (c.renderRoots s.renders).head? else s.element) := by
  by_cases h : c.cdu o n s.heap <;>
    simp [emitCdu, emitRender, h]

theorem proxySet_heap (c : Component) (s : St) (k : String) (v : Value) :
    (proxySet c s k v).heap =
      (s.heap ++ [s.heap.getD s.propsRef []]).set s.propsRef
        (storeSet (s.heap.getD s.propsRef []) k v)
    ∧ (proxySet c s k v).propsRef = s.propsRef := by
  unfold proxySet
  exact ⟨(emitCdu_observe _ _ _ _).2.1, (emitCdu_observe _ _ _ _).2.2.1⟩

theorem proxySet_countCdu (c : Component) (s : St) (k : String) (v : Value) :
    countCdu (proxySet c s k v).trace = countCdu s.trace + 1 := by
  unfold proxySet
  rw [(emitCdu_observe _ _ _ _).1]
  by_cases h : c.cdu s.heap.length s.propsRef
      ((s.heap ++ [s.heap.getD s.propsRef []]).set s.propsRef
        (storeSet (s.heap.getD s.propsRef []) k v)) <;>
    simp [h, countCdu_append, countCdu]

theorem proxySet_countRender_ge (c : Component) (s : St) (k : String) (v : Value) :
    countRender s.trace ≤ countRender (proxySet c s k v).trace := by
  unfold proxySet
  rw [(emitCdu_observe _ _ _ _).1]
  simp [countRender_append]

theorem foldProxySet_countCdu (c : Component) (p : Store) (s : St) :
    countCdu (p.foldl (fun st q => proxySet c st q.1 q.2) s).trace
      = countCdu s.trace + p.length := by
  induction p generalizing s with
  | nil => simp
  | cons q rest ih =>
    simp only [List.foldl_cons, List.length_cons]
    rw [ih, proxySet_countCdu]
    omega

theorem foldProxySet_countRender_ge (c : Component) (p : Store) (s : St) :
    countRender s.trace
      ≤ countRender (p.foldl (fun st q => proxySet c st q.1 q.2) s).trace := by
  induction p generalizing s with
  | nil => simp
  | cons q rest ih =>
    simp only [List.foldl_cons]
    exact le_trans (proxySet_countRender_ge c s q.1 q.2) (ih _)

theorem proxySet_hookFalse (c : Component) (hc : c.cdu = fun _ _ _ => false)
    (s : St) (k : String) (v : Value) :
    countRender (proxySet c s k v).trace = countRender s.trace
    ∧ (proxySet c s k v).renders = s.renders
    ∧ (proxySet c s k v).element = s.element := by
  unfold proxySet emitCdu
  simp [hc, countRender_append, countRender]

theorem foldProxySet_hookFalse (c : Component) (hc : c.cdu = fun _ _ _ => false)
    (p : Store) (s : St) :
    countRender (p.foldl (fun st q => proxySet c st q.1 q.2) s).trace
        = countRender s.trace
    ∧ (p.foldl (fun st q => proxySet c st q.1 q.2) s).renders = s.renders
    ∧ (p.foldl (fun st q => proxySet c st q.1 q.2) s).element = s.element := by
  induction p generalizing s with
  | nil => exact ⟨rfl, rfl, rfl⟩
  | cons q rest ih =>
    simp only [List.foldl_cons]
    obtain ⟨h1, h2, h3⟩ := proxySet_hookFalse c hc s q.1 q.2
    obtain ⟨i1, i2, i3⟩ := ih (proxySet c s q.1 q.2)
    exact ⟨by rw [i1, h1], by rw [i2, h2], by rw [i3, h3]⟩

/-! ## Claim theorems: lifecycle -/

/-- C1, counterexample: with a comparison hook that judges every write
equal (constantly false), a `setProps` write still emits `flow:render` and
still replaces the rendered node, because `setProps` emits `flow:render`
unconditionally after the assignment.  The claim that an equal-judged write
does not replace the rendered node is therefore false. -/
theorem c1_counterexample :
    countRender (setProps (Component.mk (fun _ _ _ => false) (fun i => [100 + i]) defaultCdm)
        (construct (Component.mk (fun _ _ _ => false) (fun i => [100 + i]) defaultCdm) [])
        (some [("a", Value.num 1)])).trace
      = countRender (construct (Component.mk (fun _ _ _ => false) (fun i => [100 + i]) defaultCdm) []).trace + 1
    ∧ getContent (setProps (Component.mk (fun _ _ _ => false) (fun i => [100 + i]) defaultCdm)
        (construct (Component.mk (fun _ _ _ => false) (fun i => [100 + i]) defaultCdm) [])
        (some [("a", Value.num 1)]))
      ≠ getContent (construct (Component.mk (fun _ _ _ => false) (fun i => [100 + i]) defaultCdm) []) := by
  constructor
  · rfl
  · decide

/-- C1 (amended): a write through `setProps` replaces the rendered node
regardless of the comparison hook: every non-nullish call emits at least
one `flow:render` (the unconditional emission at the end of `setProps`),
and when the hook judges every write equal (constantly false) the call
emits exactly one render and stores a fresh node produced by the render
hook.  The hook gates only the additional per-key renders; a hook-true
write also replaces the node, as the claim states. -/
theorem c1_setProps_always_replaces (c : Component) (s : St) (p : Store) :
    countRender s.trace + 1 ≤ countRender (setProps c s (some p)).trace
    ∧ ((c.cdu = fun _ _ _ => false) →
        countRender (setProps c s (some p)).trace = countRender s.trace + 1
        ∧ (setProps c s (some p)).element = (c.renderRoots s.renders).head?
        ∧ (setProps c s (some p)).renders = s.renders + 1) := by
  constructor
  · show countRender s.trace + 1 ≤ countRender (emitRender c _).trace
    rw [(emitRender_observe _ _).1, countRender_append]
    have h1 := foldProxySet_countRender_ge c p s
    have h2 : countRender [Event.render] = 1 := rfl
    omega
  · intro hc
    obtain ⟨h1, h2, h3⟩ := foldProxySet_hookFalse c hc p s
    refine ⟨?_, ?_, ?_⟩
    · show countRender (emitRender c _).trace = _
      rw [(emitRender_observe _ _).1, countRender_append, h1]
      simp [countRender]
    · show (emitRender c _).element = _
      rw [(emitRender_observe _ _).2.2.2.2, h2]
    · show (emitRender c _).renders = _
      rw [(emitRender_observe _ _).2.2.2.1, h2]

/-- Witness for the amended C1 at a concrete component and write. -/
theorem c1_witness :
    countRender (setProps (Component.mk (fun _ _ _ => false) (fun i => [100 + i]) defaultCdm)
        (St.mk [[]] 0 (some 100) 1 [Event.init, Event.render])
        (some [("a", Value.num 1)])).trace
      = countRender (St.mk [[]] 0 (some 100) 1 [Event.init, Event.render]).trace + 1 :=
  ((c1_setProps_always_replaces
      (Component.mk (fun _ _ _ => false) (fun i => [100 + i]) defaultCdm)
      (St.mk [[]] 0 (some 100) 1 [Event.init, Event.render])
      [("a", Value.num 1)]).2 rfl).1

/-- C2, counterexample: a `setProps` call with a two-key partial triggers
the update path twice (one `flow:component-did-update` per key), not once
per call as claimed. -/
theorem c2_counterexample :
    countCdu (setProps (Component.mk defaultCdu (fun _ => []) defaultCdm)
        (construct (Component.mk defaultCdu (fun _ => []) defaultCdm) [])
        (some [("a", Value.num 1), ("b", Value.num 2)])).trace = 2
    ∧ (2 : Nat) ≠ 1 := by
  constructor
  · rfl
  · decide

/-- C2 (amended): `Object.assign` inside `setProps` routes every key of
the partial through the proxy individually, so a call with an n-key
partial triggers the update path exactly n times (once per key), and a
nullish call triggers it zero times. -/
theorem c2_update_path_once_per_key (c : Component) (s : St) (p : Store) :
    countCdu (setProps c s (some p)).trace = countCdu s.trace + p.length
    ∧ countCdu (setProps c s none).trace = countCdu s.trace := by
  constructor
  · show countCdu (emitRender c _).trace = _
    rw [(emitRender_observe _ _).1, countCdu_append, foldProxySet_countCdu]
    simp [countCdu]
  · rfl

/-- C4, counterexample: with the default render hook (empty fragment),
construction completes with `getContent()` null, and with a two-root
fragment the second root is silently dropped; no `MalformedRender` failure
exists anywhere on this path. -/
theorem c4_counterexample :
    getContent (construct (Component.mk defaultCdu (fun _ => []) defaultCdm) []) = none
    ∧ getContent (construct (Component.mk defaultCdu (fun _ => [5, 6]) defaultCdm) []) = some 5 := by
  exact ⟨rfl, rfl⟩

/-- C4 (amended): emitting `flow:render` stores as content the first root
element of the fragment the render hook returned — null when the fragment
has no element and the first root when it has several; zero or multiple
roots are accepted silently (no `MalformedRender` is ever raised, the
source has no such check). -/
theorem c4_render_takes_first_root (c : Component) (s : St) :
    getContent (emitRender c s) = (c.renderRoots s.renders).head? := rfl

/-- C5: a write of a top-level key through the props proxy captures a
shallow snapshot of the props at a fresh reference before the mutation,
applies the mutation to the props object, emits the update event carrying
(snapshot, props), and emits `flow:render` if and only if the comparison
hook on those two references returns true; the default hook is reference
inequality of its two arguments, which holds here since the snapshot
reference is fresh. -/
theorem c5_proxy_write_path (c : Component) (s : St) (k : String) (v : Value)
    (h : s.propsRef < s.heap.length) :
    (proxySet c s k v).heap.getD s.heap.length [] = s.heap.getD s.propsRef []
    ∧ (proxySet c s k v).propsRef = s.propsRef
    ∧ (proxySet c s k v).heap.getD s.propsRef []
        = storeSet (s.heap.getD s.propsRef []) k v
    ∧ (proxySet c s k v).trace
        = s.trace ++ [Event.cdu s.heap.length s.propsRef]
          ++ (if c.cdu s.heap.length s.propsRef (proxySet c s k v).heap
              then [Event.render] else [])
    ∧ countRender (proxySet c s k v).trace
        = countRender s.trace
          + (if c.cdu s.heap.length s.propsRef (proxySet c s k v).heap
             then 1 else 0)
    ∧ defaultCdu s.heap.length s.propsRef (proxySet c s k v).heap = true := by
  have hne : s.propsRef ≠ s.heap.length := Nat.ne_of_lt h
  obtain ⟨hheap, hprops⟩ := proxySet_heap c s k v
  refine ⟨?_, hprops, ?_, ?_, ?_, ?_⟩
  · rw [hheap, List.getD_eq_getElem?_getD, List.getElem?_set_ne hne,
      List.getElem?_concat_length]
    rfl
  · have hlen : s.propsRef < (s.heap ++ [s.heap.getD s.propsRef []]).length := by
      simp only [List.length_append, List.length_cons, List.length_nil]
      omega
    rw [hheap, List.getD_eq_getElem?_getD, List.getElem?_set_eq_of_lt _ hlen]
    rfl
  · rw [hheap]
    unfold proxySet
    rw [(emitCdu_observe _ _ _ _).1]
  · rw [hheap]
    unfold proxySet
    rw [(emitCdu_observe _ _ _ _).1]
    simp only [List.getD_eq_getElem?_getD]
    by_cases hcdu : c.cdu s.heap.length s.propsRef
        ((s.heap ++ [(s.heap[s.propsRef]?).getD []]).set s.propsRef
          (storeSet ((s.heap[s.propsRef]?).getD []) k v)) <;>
      simp [hcdu, countRender_append, countRender]
  · simp [defaultCdu, Ne.symm hne]

/-- Witness for C5 at a concrete one-object heap. -/
theorem c5_witness :
    (0 : Nat) < (St.mk [[("a", Value.num 1)]] 0 none 0 []).heap.length
    ∧ (proxySet (Component.mk defaultCdu (fun _ => []) defaultCdm)
        (St.mk [[("a", Value.num 1)]] 0 none 0 []) "a" (Value.num 2)).heap.getD 0 []
        = storeSet [("a", Value.num 1)] "a" (Value.num 2) :=
  ⟨by decide,
   (c5_proxy_write_path (Component.mk defaultCdu (fun _ => []) defaultCdm)
      (St.mk [[("a", Value.num 1)]] 0 none 0 []) "a" (Value.num 2)
      (by decide)).2.2.1⟩

/-- C7: deleting any key of the reactive property store fails with
`InvalidOperation` and can never return a modified store — the trap throws
before any mutation. -/
theorem c7_delete_rejected (target : Store) (k : String) :
    proxyDelete target k = Except.error JsError.invalidOperation
    ∧ ∀ st2 : Store, proxyDelete target k ≠ Except.ok st2 := by
  exact ⟨rfl, fun st2 h => by cases h⟩

/-- C8: `dispatchComponentDidMount` emits the mounted event and its
handler runs the on-mounted hook and then re-emits `flow:render`
unconditionally; provided the hook itself emits no mount or render events
(the default hook is a no-op), every mount causes exactly one mounted
event and exactly one extra render pass. -/
theorem c8_mount_one_extra_render (c : Component) (s : St)
    (hR : ∀ t : St, countRender (c.cdmHook t).trace = countRender t.trace)
    (hM : ∀ t : St, countCdm (c.cdmHook t).trace = countCdm t.trace) :
    countCdm (dispatchComponentDidMount c s).trace = countCdm s.trace + 1
    ∧ countRender (dispatchComponentDidMount c s).trace
        = countRender s.trace + 1 := by
  unfold dispatchComponentDidMount
  constructor
  · rw [(emitRender_observe _ _).1, countCdm_append, hM, countCdm_append]
    simp [countCdm]
  · rw [(emitRender_observe _ _).1, countRender_append, hR, countRender_append]
    simp [countRender]

/-- Witness for C8 with the default no-op mount hook. -/
theorem c8_witness :
    countCdm (dispatchComponentDidMount
        (Component.mk defaultCdu (fun _ => [0]) defaultCdm)
        (St.mk [[]] 0 (some 0) 1 [Event.init, Event.render])).trace
      = countCdm (St.mk [[]] 0 (some 0) 1 [Event.init, Event.render]).trace + 1 :=
  (c8_mount_one_extra_render
      (Component.mk defaultCdu (fun _ => [0]) defaultCdm)
      (St.mk [[]] 0 (some 0) 1 [Event.init, Event.render])
      (fun _ => rfl) (fun _ => rfl)).1

/-- C9: when `getContent()` is null (e.g. the render hook produced no root
element), `show()` and `hide()` fail with a `TypeError` from dereferencing
the missing node instead of being no-ops. -/
theorem c9_show_hide_null_deref (s : St) (h : getContent s = none) :
    showB s = Except.error JsError.typeError
    ∧ hide s = Except.error JsError.typeError := by
  constructor <;> simp [showB, hide, derefElement, h, Except.map]

/-- Witness for C9: a component constructed with the default (empty)
render hook really has null content, and `show`/`hide` fail on it. -/
theorem c9_witness :
    getContent (construct (Component.mk defaultCdu (fun _ => []) defaultCdm) []) = none
    ∧ showB (construct (Component.mk defaultCdu (fun _ => []) defaultCdm) [])
        = Except.error JsError.typeError :=
  ⟨rfl,
   (c9_show_hide_null_deref
      (construct (Component.mk defaultCdu (fun _ => []) defaultCdm) []) rfl).1⟩

/-- C10: calling `setProps` with a nullish argument is a complete no-op:
the state (and hence the property store) is unchanged and no update or
render event is emitted. -/
theorem c10_setprops_nullish_noop (c : Component) (s : St) :
    setProps c s none = s
    ∧ (setProps c s none).heap = s.heap
    ∧ countCdu (setProps c s none).trace = countCdu s.trace
    ∧ countRender (setProps c s none).trace = countRender s.trace := by
  exact ⟨rfl, rfl, rfl, rfl⟩

/-! ## Claim C3: routing of the construction bag -/

theorem storeHas_false_iff (st : Store) (k : String) :
    storeHas st k = false ↔ storeGet st k = none := by
  rw [← Bool.not_eq_true, storeHas_iff_get]
  simp

theorem routeStep_preserve (pc : Store × Store) (kv : String × Value) (k : String)
    (hk : kv.1 ≠ k) :
    storeGet (routeStep pc kv).1 k = storeGet pc.1 k
    ∧ storeGet (routeStep pc kv).2 k = storeGet pc.2 k := by
  obtain ⟨k1, v1⟩ := kv
  have hk2 : k ≠ k1 := Ne.symm hk
  cases v1 with
  | arr vs =>
    by_cases hb : vs.any Value.isBlock
    · have e : routeStep pc (k1, .arr vs) = (pc.1, storeSet pc.2 k1 (.arr vs)) := by
        simp [routeStep, hb]
      rw [e]
      exact ⟨rfl, storeGet_set_other _ _ _ _ hk2⟩
    · have e : routeStep pc (k1, .arr vs) = pc := by
        simp [routeStep, hb]
      rw [e]
      exact ⟨rfl, rfl⟩
  | block b => exact ⟨rfl, storeGet_set_other _ _ _ _ hk2⟩
  | str s => exact ⟨storeGet_set_other _ _ _ _ hk2, rfl⟩
  | num n => exact ⟨storeGet_set_other _ _ _ _ hk2, rfl⟩
  | bool b => exact ⟨storeGet_set_other _ _ _ _ hk2, rfl⟩
  | null => exact ⟨storeGet_set_other _ _ _ _ hk2, rfl⟩
  | undef => exact ⟨storeGet_set_other _ _ _ _ hk2, rfl⟩
  | func f => exact ⟨storeGet_set_other _ _ _ _ hk2, rfl⟩
  | objRef r => exact ⟨storeGet_set_other _ _ _ _ hk2, rfl⟩

theorem foldRoute_preserve (bag : List (String × Value)) (pc : Store × Store)
    (k : String) (hk : ∀ p ∈ bag, p.1 ≠ k) :
    storeGet (bag.foldl routeStep pc).1 k = storeGet pc.1 k
    ∧ storeGet (bag.foldl routeStep pc).2 k = storeGet pc.2 k := by
  induction bag generalizing pc with
  | nil => exact ⟨rfl, rfl⟩
  | cons q rest ih =>
    simp only [List.foldl_cons]
    obtain ⟨h1, h2⟩ := routeStep_preserve pc q k (hk q (List.mem_cons_self _ _))
    obtain ⟨i1, i2⟩ := ih (routeStep pc q)
      (fun p hp => hk p (List.mem_cons_of_mem _ hp))
    exact ⟨i1.trans h1, i2.trans h2⟩

theorem c3_aux (bag : List (String × Value)) (pc : Store × Store)
    (k : String) (v : Value)
    (hmem : (k, v) ∈ bag) (hnd : (bag.map Prod.fst).Nodup)
    (h1 : storeGet pc.1 k = none) (h2 : storeGet pc.2 k = none) :
    routedAs (bag.foldl routeStep pc).1 (bag.foldl routeStep pc).2 k v := by
  induction bag generalizing pc with
  | nil => simp at hmem
  | cons q rest ih =>
    simp only [List.map_cons, List.nodup_cons] at hnd
    rcases List.mem_cons.1 hmem with heq | hmem2
    · obtain rfl := heq.symm
      have hrest : ∀ p ∈ rest, p.1 ≠ k := by
        intro p hp hpk
        apply hnd.1
        have hm : p.1 ∈ rest.map Prod.fst := List.mem_map_of_mem Prod.fst hp
        rwa [hpk] at hm
      simp only [List.foldl_cons]
      obtain ⟨f1, f2⟩ := foldRoute_preserve rest (routeStep pc (k, v)) k hrest
      cases v with
      | arr vs =>
        by_cases hb : vs.any Value.isBlock
        · have e : routeStep pc (k, .arr vs) = (pc.1, storeSet pc.2 k (.arr vs)) := by
            simp [routeStep, hb]
          rw [e] at f1 f2 ⊢
          rw [storeGet_set_self] at f2
          simp only [routedAs, if_pos hb]
          exact ⟨f2, (storeHas_false_iff _ _).2 (f1.trans h1)⟩
        · have e : routeStep pc (k, .arr vs) = pc := by
            simp [routeStep, hb]
          rw [e] at f1 f2 ⊢
          simp only [routedAs, if_neg hb]
          exact ⟨(storeHas_false_iff _ _).2 (f2.trans h2),
                 (storeHas_false_iff _ _).2 (f1.trans h1)⟩
      | block b =>
        have e : routeStep pc (k, .block b) = (pc.1, storeSet pc.2 k (.block b)) := rfl
        rw [e] at f1 f2 ⊢
        rw [storeGet_set_self] at f2
        simp only [routedAs]
        exact ⟨f2, (storeHas_false_iff _ _).2 (f1.trans h1)⟩
      | str s =>
        rw [show routeStep pc (k, .str s) = (storeSet pc.1 k (.str s), pc.2) from rfl] at f1 f2 ⊢
        rw [storeGet_set_self] at f1
        simp only [routedAs]
        exact ⟨f1, (storeHas_false_iff _ _).2 (f2.trans h2)⟩
      | num n =>
        rw [show routeStep pc (k, .num n) = (storeSet pc.1 k (.num n), pc.2) from rfl] at f1 f2 ⊢
        rw [storeGet_set_self] at f1
        simp only [routedAs]
        exact ⟨f1, (storeHas_false_iff _ _).2 (f2.trans h2)⟩
      | bool b =>
        rw [show routeStep pc (k, .bool b) = (storeSet pc.1 k (.bool b), pc.2) from rfl] at f1 f2 ⊢
        rw [storeGet_set_self] at f1
        simp only [routedAs]
        exact ⟨f1, (storeHas_false_iff _ _).2 (f2.trans h2)⟩
      | null =>
        rw [show routeStep pc (k, .null) = (storeSet pc.1 k .null, pc.2) from rfl] at f1 f2 ⊢
        rw [storeGet_set_self] at f1
        simp only [routedAs]
        exact ⟨f1, (storeHas_false_iff _ _).2 (f2.trans h2)⟩
      | undef =>
        rw [show routeStep pc (k, .undef) = (storeSet pc.1 k .undef, pc.2) from rfl] at f1 f2 ⊢
        rw [storeGet_set_self] at f1
        simp only [routedAs]
        exact ⟨f1, (storeHas_false_iff _ _).2 (f2.trans h2)⟩
      | func f =>
        rw [show routeStep pc (k, .func f) = (storeSet pc.1 k (.func f), pc.2) from rfl] at f1 f2 ⊢
        rw [storeGet_set_self] at f1
        simp only [routedAs]
        exact ⟨f1, (storeHas_false_iff _ _).2 (f2.trans h2)⟩
      | objRef r =>
        rw [show routeStep pc (k, .objRef r) = (storeSet pc.1 k (.objRef r), pc.2) from rfl] at f1 f2 ⊢
        rw [storeGet_set_self] at f1
        simp only [routedAs]
        exact ⟨f1, (storeHas_false_iff _ _).2 (f2.trans h2)⟩
    · have hk : q.1 ≠ k := by
        intro h
        apply hnd.1
        rw [h]
        exact List.mem_map_of_mem Prod.fst hmem2
      simp only [List.foldl_cons]
      obtain ⟨p1, p2⟩ := routeStep_preserve pc q k hk
      exact ih (routeStep pc q) hmem2 hnd.2 (p1.trans h1) (p2.trans h2)

/-- C3, counterexample: a key whose value is an array containing no
component (here a one-element array of a string) is dropped entirely by
`_getChildrenAndProps`: it lands neither in props nor in children, so the
claim that every key is routed to exactly one of the three destinations is
false. -/
theorem c3_counterexample :
    storeHas (getChildrenAndProps [("k", Value.arr [Value.str "x"])]).1 "k" = false
    ∧ storeHas (getChildrenAndProps [("k", Value.arr [Value.str "x"])]).2 "k" = false := by
  exact ⟨rfl, rfl⟩

/-- C3 (amended): for a construction bag with distinct keys, each key is
routed as follows — a `Block` value goes to children; an array value goes
(whole, including any non-component elements) to children iff it contains
at least one `Block`; an array with no `Block` element is dropped,
landing in neither map; every other value goes to props; and no key ever
appears in both maps. -/
theorem c3_routing (bag : List (String × Value))
    (hnd : (bag.map Prod.fst).Nodup) (k : String) (v : Value)
    (hmem : (k, v) ∈ bag) :
    routedAs (getChildrenAndProps bag).1 (getChildrenAndProps bag).2 k v :=
  c3_aux bag ([], []) k v hmem hnd rfl rfl

/-- Witness for the amended C3 on a four-key bag exercising the
array-with-component case. -/
theorem c3_witness :
    (([("a", Value.num 1), ("b", Value.block 0),
       ("c", Value.arr [Value.block 1, Value.str "x"]),
       ("d", Value.arr [])].map Prod.fst).Nodup)
    ∧ routedAs
        (getChildrenAndProps [("a", Value.num 1), ("b", Value.block 0),
          ("c", Value.arr [Value.block 1, Value.str "x"]),
          ("d", Value.arr [])]).1
        (getChildrenAndProps [("a", Value.num 1), ("b", Value.block 0),
          ("c", Value.arr [Value.block 1, Value.str "x"]),
          ("d", Value.arr [])]).2
        "c" (Value.arr [Value.block 1, Value.str "x"]) :=
  ⟨by decide,
   c3_routing
     [("a", Value.num 1), ("b", Value.block 0),
      ("c", Value.arr [Value.block 1, Value.str "x"]),
      ("d", Value.arr [])]
     (by decide) "c" (Value.arr [Value.block 1, Value.str "x"])
     (List.Mem.tail _ (List.Mem.tail _ (List.Mem.head _)))⟩

/-! ## Claim C6: stub building and substitution in `compile` -/

theorem allNodes_cons_elem (t : String) (a : List (String × String))
    (kids rest : List HNode) :
    allNodes (.elem t a kids :: rest)
      = .elem t a kids :: (allNodes kids ++ allNodes rest) := by
  simp [allNodes]

theorem allNodes_cons_text (s : String) (rest : List HNode) :
    allNodes (.text s :: rest) = .text s :: allNodes rest := by
  simp [allNodes]

theorem allNodes_singleton_elem (t : String) (a : List (String × String))
    (kids : List HNode) :
    allNodes [.elem t a kids] = .elem t a kids :: allNodes kids := by
  simp [allNodes]

theorem rf_found (id : String) (repl : HNode) (frag : List HNode)
    (n0 : HNode) (frag2 : List HNode)
    (h : replaceFirst id repl frag = some (n0, frag2)) :
    selfHasDataId id n0 = true := by
  induction frag using replaceFirst.induct id repl generalizing n0 frag2 with
  | case1 => simp [replaceFirst] at h
  | case2 n rest hsel =>
    rw [replaceFirst.eq_def] at h
    simp [hsel] at h
    rw [← h.1]
    exact hsel
  | case3 rest t a kids m0 kids2 hkids hsel ih =>
    rw [replaceFirst.eq_def] at h
    simp only [Bool.not_eq_true] at hsel
    simp [hsel, hkids] at h
    rw [← h.1]
    exact ih _ _ hkids
  | case4 rest t a kids hkids m0 rest2 hrest hsel ihk ihr =>
    rw [replaceFirst.eq_def] at h
    simp only [Bool.not_eq_true] at hsel
    simp [hsel, hkids, hrest] at h
    rw [← h.1]
    exact ihr _ _ hrest
  | case5 rest t a kids hkids hrest hsel ihk ihr =>
    rw [replaceFirst.eq_def] at h
    simp only [Bool.not_eq_true] at hsel
    simp [hsel, hkids, hrest] at h
  | case6 rest a m0 rest2 hrest hsel ih =>
    rw [replaceFirst.eq_def] at h
    simp only [Bool.not_eq_true] at hsel
    simp [hsel, hrest] at h
    rw [← h.1]
    exact ih _ _ hrest
  | case7 rest a hrest hsel ih =>
    rw [replaceFirst.eq_def] at h
    simp only [Bool.not_eq_true] at hsel
    simp [hsel, hrest] at h

theorem allNodes_cons (x : HNode) (rest : List HNode) :
    allNodes (x :: rest) = allNodes [x] ++ allNodes rest := by
  cases x <;> simp [allNodes]

theorem rf_mem (id : String) (repl : HNode) (frag : List HNode)
    (n0 : HNode) (frag2 : List HNode)
    (h : replaceFirst id repl frag = some (n0, frag2)) :
    n0 ∈ allNodes frag := by
  induction frag using replaceFirst.induct id repl generalizing n0 frag2 with
  | case1 => simp [replaceFirst] at h
  | case2 n rest hsel =>
    rw [replaceFirst.eq_def] at h
    simp [hsel] at h
    rw [← h.1, allNodes_cons]
    cases n <;> simp [allNodes]
  | case3 rest t a kids m0 kids2 hkids hsel ih =>
    rw [replaceFirst.eq_def] at h
    simp only [Bool.not_eq_true] at hsel
    simp [hsel, hkids] at h
    rw [← h.1, allNodes_cons_elem]
    exact List.mem_cons_of_mem _ (List.mem_append_left _ (ih _ _ hkids))
  | case4 rest t a kids hkids m0 rest2 hrest hsel ihk ihr =>
    rw [replaceFirst.eq_def] at h
    simp only [Bool.not_eq_true] at hsel
    simp [hsel, hkids, hrest] at h
    rw [← h.1, allNodes_cons_elem]
    exact List.mem_cons_of_mem _ (List.mem_append_right _ (ihr _ _ hrest))
  | case5 rest t a kids hkids hrest hsel ihk ihr =>
    rw [replaceFirst.eq_def] at h
    simp only [Bool.not_eq_true] at hsel
    simp [hsel, hkids, hrest] at h
  | case6 rest a m0 rest2 hrest hsel ih =>
    rw [replaceFirst.eq_def] at h
    simp only [Bool.not_eq_true] at hsel
    simp [hsel, hrest] at h
    rw [← h.1, allNodes_cons_text]
    exact List.mem_cons_of_mem _ (ih _ _ hrest)
  | case7 rest a hrest hsel ih =>
    rw [replaceFirst.eq_def] at h
    simp only [Bool.not_eq_true] at hsel
    simp [hsel, hrest] at h

theorem rf_length (id : String) (repl : HNode) (frag : List HNode)
    (n0 : HNode) (frag2 : List HNode)
    (h : replaceFirst id repl frag = some (n0, frag2)) :
    frag2.length = frag.length := by
  induction frag using replaceFirst.induct id repl generalizing n0 frag2 with
  | case1 => simp [replaceFirst] at h
  | case2 n rest hsel =>
    rw [replaceFirst.eq_def] at h
    simp [hsel] at h
    rw [← h.2]
    simp
  | case3 rest t a kids m0 kids2 hkids hsel ih =>
    rw [replaceFirst.eq_def] at h
    simp only [Bool.not_eq_true] at hsel
    simp [hsel, hkids] at h
    rw [← h.2]
    simp
  | case4 rest t a kids hkids m0 rest2 hrest hsel ihk ihr =>
    rw [replaceFirst.eq_def] at h
    simp only [Bool.not_eq_true] at hsel
    simp [hsel, hkids, hrest] at h
    rw [← h.2]
    simp [ihr _ _ hrest]
  | case5 rest t a kids hkids hrest hsel ihk ihr =>
    rw [replaceFirst.eq_def] at h
    simp only [Bool.not_eq_true] at hsel
    simp [hsel, hkids, hrest] at h
  | case6 rest a m0 rest2 hrest hsel ih =>
    rw [replaceFirst.eq_def] at h
    simp only [Bool.not_eq_true] at hsel
    simp [hsel, hrest] at h
    rw [← h.2]
    simp [ih _ _ hrest]
  | case7 rest a hrest hsel ih =>
    rw [replaceFirst.eq_def] at h
    simp only [Bool.not_eq_true] at hsel
    simp [hsel, hrest] at h

theorem rf_count (id : String) (repl : HNode) (frag : List HNode)
    (n0 : HNode) (frag2 : List HNode) (p : HNode → Bool)
    (hp : ∀ t a kids kids2, kids.length = kids2.length →
      p (.elem t a kids) = p (.elem t a kids2))
    (h : replaceFirst id repl frag = some (n0, frag2)) :
    (allNodes frag2).countP p + (allNodes [n0]).countP p
      = (allNodes frag).countP p + (allNodes [repl]).countP p := by
  induction frag using replaceFirst.induct id repl generalizing n0 frag2 with
  | case1 => simp [replaceFirst] at h
  | case2 n rest hsel =>
    rw [replaceFirst.eq_def] at h
    simp [hsel] at h
    rw [← h.1, ← h.2, allNodes_cons repl rest, allNodes_cons n rest]
    simp only [List.countP_append]
    omega
  | case3 rest t a kids m0 kids2 hkids hsel ih =>
    rw [replaceFirst.eq_def] at h
    simp only [Bool.not_eq_true] at hsel
    simp [hsel, hkids] at h
    rw [← h.1, ← h.2, allNodes_cons_elem t a kids2 rest, allNodes_cons_elem t a kids rest]
    have hlen := rf_length id repl kids m0 kids2 hkids
    have hpe := hp t a kids2 kids hlen
    have := ih _ _ hkids
    simp only [List.countP_cons, List.countP_append, hpe]
    omega
  | case4 rest t a kids hkids m0 rest2 hrest hsel ihk ihr =>
    rw [replaceFirst.eq_def] at h
    simp only [Bool.not_eq_true] at hsel
    simp [hsel, hkids, hrest] at h
    rw [← h.1, ← h.2, allNodes_cons_elem t a kids rest2, allNodes_cons_elem t a kids rest]
    have := ihr _ _ hrest
    simp only [List.countP_cons, List.countP_append]
    omega
  | case5 rest t a kids hkids hrest hsel ihk ihr =>
    rw [replaceFirst.eq_def] at h
    simp only [Bool.not_eq_true] at hsel
    simp [hsel, hkids, hrest] at h
  | case6 rest a m0 rest2 hrest hsel ih =>
    rw [replaceFirst.eq_def] at h
    simp only [Bool.not_eq_true] at hsel
    simp [hsel, hrest] at h
    rw [← h.1, ← h.2, allNodes_cons_text a rest2, allNodes_cons_text a rest]
    have := ih _ _ hrest
    simp only [List.countP_cons]
    omega
  | case7 rest a hrest hsel ih =>
    rw [replaceFirst.eq_def] at h
    simp only [Bool.not_eq_true] at hsel
    simp [hsel, hrest] at h

theorem countDataId_cons_elem (id t : String) (a : List (String × String))
    (kids rest : List HNode) :
    countDataId id (.elem t a kids :: rest)
      = (if selfHasDataId id (.elem t a kids) then 1 else 0)
        + countDataId id kids + countDataId id rest := by
  simp only [countDataId, allNodes_cons_elem, List.countP_cons, List.countP_append]
  by_cases hsel : selfHasDataId id (HNode.elem t a kids)
  · simp [hsel]
    omega
  · simp [hsel]

theorem countDataId_cons_text (id : String) (a : String) (rest : List HNode) :
    countDataId id (.text a :: rest) = countDataId id rest := by
  simp [countDataId, allNodes_cons_text, List.countP_cons, selfHasDataId]

theorem rf_none_iff (id : String) (repl : HNode) (frag : List HNode) :
    replaceFirst id repl frag = none ↔ countDataId id frag = 0 := by
  induction frag using replaceFirst.induct id repl with
  | case1 => simp [replaceFirst, countDataId, allNodes]
  | case2 n rest hsel =>
    rw [replaceFirst.eq_def]
    simp only [hsel, if_pos]
    constructor
    · intro h; cases h
    · intro h
      exfalso
      cases n with
      | elem t a kids =>
        rw [countDataId_cons_elem, if_pos hsel] at h
        omega
      | text s => simp [selfHasDataId] at hsel
  | case3 rest t a kids m0 kids2 hkids hsel ih =>
    rw [replaceFirst.eq_def]
    simp only [Bool.not_eq_true] at hsel
    simp only [hsel, Bool.false_eq_true, if_neg, hkids]
    rw [countDataId_cons_elem, if_neg (by simp [hsel])]
    constructor
    · intro h; cases h
    · intro h
      exfalso
      have : countDataId id kids ≠ 0 := by
        intro hz
        have := ih.2 hz
        rw [this] at hkids
        cases hkids
      omega
  | case4 rest t a kids hkids m0 rest2 hrest hsel ihk ihr =>
    rw [replaceFirst.eq_def]
    simp only [Bool.not_eq_true] at hsel
    simp only [hsel, Bool.false_eq_true, if_neg, hkids, hrest]
    rw [countDataId_cons_elem, if_neg (by simp [hsel])]
    constructor
    · intro h; cases h
    · intro h
      exfalso
      have : countDataId id rest ≠ 0 := by
        intro hz
        have := ihr.2 hz
        rw [this] at hrest
        cases hrest
      omega
  | case5 rest t a kids hkids hrest hsel ihk ihr =>
    rw [replaceFirst.eq_def]
    simp only [Bool.not_eq_true] at hsel
    simp only [hsel, Bool.false_eq_true, if_neg, hkids, hrest]
    rw [countDataId_cons_elem, if_neg (by simp [hsel])]
    have h1 := ihk.1 hkids
    have h2 := ihr.1 hrest
    simp [h1, h2, hsel]
  | case6 rest a m0 rest2 hrest hsel ih =>
    rw [replaceFirst.eq_def]
    simp only [hrest]
    simp only [selfHasDataId, Bool.false_eq_true, if_neg]
    rw [countDataId_cons_text]
    constructor
    · intro h; cases h
    · intro h
      exfalso
      have := ih.2 h
      rw [this] at hrest
      cases hrest
  | case7 rest a hrest hsel ih =>
    rw [replaceFirst.eq_def]
    simp only [hrest]
    rw [countDataId_cons_text]
    simp [ih.1 hrest, selfHasDataId]

theorem isStub_spec (id : String) (n : HNode) (h : isStub id n = true) :
    n = .elem "div" [("data-id", id)] [] := by
  cases n with
  | elem t attrs kids =>
    simp only [isStub, Bool.and_eq_true, decide_eq_true_eq,
      List.isEmpty_iff] at h
    obtain ⟨⟨h1, h2⟩, h3⟩ := h
    subst h1; subst h2; subst h3; rfl
  | text s => simp [isStub] at h

theorem selfHasDataId_stub (id id2 : String) :
    selfHasDataId id2 (.elem "div" [("data-id", id)] []) = (id == id2) := by
  simp [selfHasDataId]

theorem onlyStubs_iff_count (id : String) (frag : List HNode) :
    onlyStubs id frag = true
      ↔ (allNodes frag).countP (fun n => selfHasDataId id n && !isStub id n) = 0 := by
  rw [onlyStubs, List.all_eq_true, List.countP_eq_zero]
  constructor
  · intro h n hn
    have h2 := h n hn
    cases hs : selfHasDataId id n <;> cases ht : isStub id n <;>
      simp [hs, ht] at h2 ⊢
  · intro h n hn
    have h2 := h n hn
    cases hs : selfHasDataId id n <;> cases ht : isStub id n <;>
      simp [hs, ht] at h2 ⊢

theorem dataIdFree_count (frag : List HNode) (hf : dataIdFree frag = true)
    (id : String) : countDataId id frag = 0 := by
  rw [countDataId, List.countP_eq_zero]
  intro n hn
  have hh := (List.all_eq_true.1 hf) n hn
  cases n with
  | elem t attrs kids =>
    simp only [hasNoDataIdAttr, List.all_eq_true, decide_eq_true_eq] at hh
    simp only [selfHasDataId, List.any_eq_true, Bool.and_eq_true, beq_iff_eq,
      not_exists, not_and]
    intro p hp hpk
    exact absurd hpk (hh p hp)
  | text s => simp [selfHasDataId]

theorem dataIdFree_countViol (frag : List HNode) (hf : dataIdFree frag = true)
    (id : String) :
    (allNodes frag).countP (fun n => selfHasDataId id n && !isStub id n) = 0 := by
  have h1 : (allNodes frag).countP (fun n => selfHasDataId id n && !isStub id n)
      ≤ (allNodes frag).countP (fun n => selfHasDataId id n) := by
    apply List.countP_mono_left
    intro n hn hp
    rw [Bool.and_eq_true] at hp
    exact hp.1
  have h2 := dataIdFree_count frag hf id
  rw [countDataId] at h2
  omega

theorem substOne_absent (frag : List HNode) (id : String) (content : HNode)
    (h : countDataId id frag = 0) : substOne frag id content = frag := by
  unfold substOne
  rw [(rf_none_iff id content frag).2 h]

theorem substOne_count_zero (frag : List HNode) (id id2 : String)
    (content : HNode) (h : countDataId id frag = 0)
    (hc : countDataId id [content] = 0) :
    countDataId id (substOne frag id2 content) = 0 := by
  unfold substOne
  cases hr : replaceFirst id2 content frag with
  | none => exact h
  | some pr =>
    obtain ⟨n0, frag2⟩ := pr
    have hcount := rf_count id2 content frag n0 frag2
      (fun n => selfHasDataId id n) (fun _ _ _ _ _ => rfl) hr
    simp only [countDataId] at h hc ⊢
    omega

theorem substSeq_count_zero (cs : List ChildComp) (frag : List HNode)
    (id : String) (h : countDataId id frag = 0)
    (hfree : ∀ c ∈ cs, countDataId id [c.content] = 0) :
    countDataId id (substSeq cs frag) = 0 := by
  induction cs generalizing frag with
  | nil => exact h
  | cons c rest ih =>
    simp only [substSeq, List.foldl_cons]
    exact ih _
      (substOne_count_zero frag id c.cid c.content h
        (hfree c (List.mem_cons_self _ _)))
      (fun c2 hc2 => hfree c2 (List.mem_cons_of_mem _ hc2))

theorem substSeq_absent (cs : List ChildComp) (frag : List HNode)
    (h : ∀ c ∈ cs, countDataId c.cid frag = 0) :
    substSeq cs frag = frag := by
  induction cs with
  | nil => rfl
  | cons c rest ih =>
    simp only [substSeq, List.foldl_cons] at ih ⊢
    rw [substOne_absent frag c.cid c.content (h c (List.mem_cons_self _ _))]
    exact ih (fun c2 hc2 => h c2 (List.mem_cons_of_mem _ hc2))

theorem isEmpty_of_length_eq {α β : Type} (xs : List α) (ys : List β)
    (h : xs.length = ys.length) : xs.isEmpty = ys.isEmpty := by
  cases xs <;> cases ys <;> simp_all

theorem violPred_kids_invariant (id2 t : String) (a : List (String × String))
    (kids kids2 : List HNode) (hlen : kids.length = kids2.length) :
    (selfHasDataId id2 (.elem t a kids) && !isStub id2 (.elem t a kids))
      = (selfHasDataId id2 (.elem t a kids2) && !isStub id2 (.elem t a kids2)) := by
  simp only [selfHasDataId, isStub]
  rw [isEmpty_of_length_eq kids kids2 hlen]

theorem substSeq_spec (cs : List ChildComp) (frag : List HNode)
    (hnd : (cs.map ChildComp.cid).Nodup)
    (hone : ∀ c ∈ cs, countDataId c.cid frag = 1)
    (hstub : ∀ c ∈ cs, onlyStubs c.cid frag = true)
    (hfree : ∀ c ∈ cs, dataIdFree [c.content] = true) :
    (∀ c ∈ cs, countDataId c.cid (substSeq cs frag) = 0)
    ∧ (allNodes (substSeq cs frag)).length + cs.length
        = (allNodes frag).length
          + (cs.map (fun c => (allNodes [c.content]).length)).sum := by
  induction cs generalizing frag with
  | nil => simp [substSeq]
  | cons c cs2 ih =>
    simp only [List.map_cons, List.nodup_cons] at hnd
    cases hr : replaceFirst c.cid c.content frag with
    | none =>
      have h0 := (rf_none_iff c.cid c.content frag).1 hr
      rw [hone c (List.mem_cons_self _ _)] at h0
      cases h0
    | some pr =>
      obtain ⟨n0, frag2⟩ := pr
      have hsubst : substSeq (c :: cs2) frag = substSeq cs2 frag2 := by
        simp only [substSeq, List.foldl_cons]
        unfold substOne
        rw [hr]
      have hfound := rf_found _ _ _ _ _ hr
      have hmem0 := rf_mem _ _ _ _ _ hr
      have hstubC := (List.all_eq_true.1 (hstub c (List.mem_cons_self _ _))) n0 hmem0
      rw [Bool.or_eq_true, hfound] at hstubC
      have hn0 := isStub_spec _ _ (by simpa using hstubC)
      have hall0 : allNodes [n0] = [n0] := by
        rw [hn0]; simp [allNodes]
      have htrans : ∀ id2 : String,
          countDataId id2 frag2 + (if (c.cid == id2) then 1 else 0)
            = countDataId id2 frag + countDataId id2 [c.content] := by
        intro id2
        have hc2 := rf_count c.cid c.content frag n0 frag2
          (fun n => selfHasDataId id2 n) (fun _ _ _ _ _ => rfl) hr
        rw [hall0] at hc2
        simp only [List.countP_cons, List.countP_nil, hn0,
          selfHasDataId_stub] at hc2
        simp only [countDataId]
        cases hbeq : (c.cid == id2) <;> simp [hbeq] at hc2 ⊢ <;> omega
      have hcontentfree := hfree c (List.mem_cons_self _ _)
      have hhead : countDataId c.cid frag2 = 0 := by
        have hh := htrans c.cid
        rw [hone c (List.mem_cons_self _ _),
          dataIdFree_count _ hcontentfree c.cid] at hh
        simp at hh
        omega
      have hone2 : ∀ c2 ∈ cs2, countDataId c2.cid frag2 = 1 := by
        intro c2 hc2
        have hne : (c.cid == c2.cid) = false := by
          rw [beq_eq_false_iff_ne]
          intro he
          exact hnd.1 (he ▸ List.mem_map_of_mem ChildComp.cid hc2)
        have hh := htrans c2.cid
        rw [hone c2 (List.mem_cons_of_mem _ hc2),
          dataIdFree_count _ hcontentfree c2.cid, hne] at hh
        simpa using hh
      have hstub2 : ∀ c2 ∈ cs2, onlyStubs c2.cid frag2 = true := by
        intro c2 hc2
        rw [onlyStubs_iff_count]
        have hviol := rf_count c.cid c.content frag n0 frag2
          (fun n => selfHasDataId c2.cid n && !isStub c2.cid n)
          (fun t a kids kids2 hlen =>
            violPred_kids_invariant c2.cid t a kids kids2 hlen)
          hr
        have hz1 := (onlyStubs_iff_count c2.cid frag).1
          (hstub c2 (List.mem_cons_of_mem _ hc2))
        have hz2 := dataIdFree_countViol [c.content] hcontentfree c2.cid
        rw [hz1, hz2] at hviol
        omega
      have hfree2 : ∀ c2 ∈ cs2, dataIdFree [c2.content] = true :=
        fun c2 hc2 => hfree c2 (List.mem_cons_of_mem _ hc2)
      obtain ⟨ih1, ih2⟩ := ih frag2 hnd.2 hone2 hstub2 hfree2
      rw [hsubst]
      constructor
      · intro c2 hc2
        rcases List.mem_cons.1 hc2 with rfl | hc2m
        · exact substSeq_count_zero cs2 frag2 c2.cid hhead
            (fun c3 hc3 => dataIdFree_count _ (hfree2 c3 hc3) c2.cid)
        · exact ih1 c2 hc2m
      · have hlen1 := rf_count c.cid c.content frag n0 frag2
          (fun _ => true) (fun _ _ _ _ _ => rfl) hr
        rw [hall0] at hlen1
        simp only [List.countP_true, List.length_cons, List.length_nil] at hlen1
        simp only [List.map_cons, List.sum_cons, List.length_cons]
        omega

theorem string_append_ne_empty (s t : String) (h : s ≠ "") : s ++ t ≠ "" := by
  intro he
  apply h
  have hd : s.data ++ t.data = [] := congrArg String.data he
  rcases List.append_eq_nil.1 hd with ⟨h1, _⟩
  cases s
  simp at h1
  simp [h1]

theorem stubStr_ne_empty (id : String) : stubStr id ≠ "" := by
  apply string_append_ne_empty
  apply string_append_ne_empty
  intro h
  have hd := congrArg String.data h
  simp at hd

theorem appendStub_fold (k : String) (cs : List ChildComp) (ctx : Store)
    (s : String) (hs : storeGet ctx k = some (.str s)) (hne : s ≠ "") :
    storeGet (cs.foldl (fun a c => appendStub a k c.cid) ctx) k
      = some (.str (s ++ stubsConcat cs)) := by
  induction cs generalizing ctx s with
  | nil =>
    simpa [stubsConcat] using hs
  | cons c rest ih =>
    simp only [List.foldl_cons]
    have happ : appendStub ctx k c.cid
        = storeSet ctx k (.str (s ++ stubStr c.cid)) := by
      rw [appendStub, hs]
      simp [Value.truthy, hne, valueToString]
    rw [happ,
      ih (storeSet ctx k (.str (s ++ stubStr c.cid))) (s ++ stubStr c.cid)
        (storeGet_set_self _ _ _) (string_append_ne_empty _ _ hne),
      String.append_assoc]
    rfl

theorem buildStubs_seq (k : String) (cs : List ChildComp) (ctx : Store)
    (hk : storeGet ctx k = none) (hne : cs ≠ []) :
    storeGet (buildStubs [(k, ChildEntry.many cs)] ctx) k
      = some (.str (stubsConcat cs)) := by
  cases cs with
  | nil => exact absurd rfl hne
  | cons c rest =>
    show storeGet ((c :: rest).foldl (fun a x => appendStub a k x.cid) ctx) k = _
    simp only [List.foldl_cons]
    have happ : appendStub ctx k c.cid = storeSet ctx k (.str (stubStr c.cid)) := by
      rw [appendStub, hk]
    rw [happ,
      appendStub_fold k rest _ (stubStr c.cid) (storeGet_set_self _ _ _)
        (stubStr_ne_empty _)]
    rfl

/-- C6: for a child entry holding a sequence, `compile` (a) writes under
the entry key exactly one placeholder fragment per element, concatenated
in sequence order, provided the incoming context holds nothing under that
key; (b) when the compiled markup contains exactly one placeholder per
element (and only genuine placeholder nodes carry those ids, and rendered
child content carries no data-id attributes), every placeholder is
replaced by the rendered root of its child — afterwards no node with any
of those data-ids remains, and the node count grows by exactly the
content of each child minus its one-node stub; (c) a placeholder absent
from the compiled markup is tolerated silently: if no stub occurs, the
markup is returned unchanged, with no error. -/
theorem c6_sequence_stub_substitution
    (k : String) (cs : List ChildComp) (ctx : Store)
    (tmpl : Store → List HNode)
    (hk : storeGet ctx k = none) (hne : cs ≠ [])
    (hnd : (cs.map ChildComp.cid).Nodup)
    (hfree : ∀ c ∈ cs, dataIdFree [c.content] = true) :
    storeGet (buildStubs [(k, ChildEntry.many cs)] ctx) k
      = some (.str (stubsConcat cs))
    ∧ ((∀ c ∈ cs,
          countDataId c.cid (tmpl (buildStubs [(k, ChildEntry.many cs)] ctx)) = 1
          ∧ onlyStubs c.cid (tmpl (buildStubs [(k, ChildEntry.many cs)] ctx)) = true) →
        (∀ c ∈ cs, countDataId c.cid (compileB [(k, ChildEntry.many cs)] tmpl ctx) = 0)
        ∧ (allNodes (compileB [(k, ChildEntry.many cs)] tmpl ctx)).length + cs.length
            = (allNodes (tmpl (buildStubs [(k, ChildEntry.many cs)] ctx))).length
              + (cs.map (fun c => (allNodes [c.content]).length)).sum)
    ∧ ((∀ c ∈ cs,
          countDataId c.cid (tmpl (buildStubs [(k, ChildEntry.many cs)] ctx)) = 0) →
        compileB [(k, ChildEntry.many cs)] tmpl ctx
          = tmpl (buildStubs [(k, ChildEntry.many cs)] ctx)) := by
  refine ⟨buildStubs_seq k cs ctx hk hne, ?_, ?_⟩
  · intro hh
    exact substSeq_spec cs (tmpl (buildStubs [(k, ChildEntry.many cs)] ctx)) hnd
      (fun c hc => (hh c hc).1) (fun c hc => (hh c hc).2) hfree
  · intro hh
    exact substSeq_absent cs _ hh

/-- Witness for C6: the three-leaf scenario of the spec — a parent with
one sequence entry of three rendered leaves, a template whose markup
contains the three stubs; all three are substituted and no placeholder
remains, and the context carried the three concatenated placeholders. -/
theorem c6_witness :
    storeGet (buildStubs
        [("item", ChildEntry.many
          [ChildComp.mk "i1" (.elem "span" [] []),
           ChildComp.mk "i2" (.elem "span" [] []),
           ChildComp.mk "i3" (.elem "p" [] [])])]
        [("title", Value.str "x")]) "item"
      = some (.str (stubsConcat
          [ChildComp.mk "i1" (.elem "span" [] []),
           ChildComp.mk "i2" (.elem "span" [] []),
           ChildComp.mk "i3" (.elem "p" [] [])]))
    ∧ countDataId "i1" (compileB
        [("item", ChildEntry.many
          [ChildComp.mk "i1" (.elem "span" [] []),
           ChildComp.mk "i2" (.elem "span" [] []),
           ChildComp.mk "i3" (.elem "p" [] [])])]
        (fun _ => [HNode.elem "ul" []
          [HNode.elem "div" [("data-id", "i1")] [],
           HNode.elem "div" [("data-id", "i2")] [],
           HNode.elem "div" [("data-id", "i3")] []]])
        [("title", Value.str "x")]) = 0
    ∧ countDataId "i2" (compileB
        [("item", ChildEntry.many
          [ChildComp.mk "i1" (.elem "span" [] []),
           ChildComp.mk "i2" (.elem "span" [] []),
           ChildComp.mk "i3" (.elem "p" [] [])])]
        (fun _ => [HNode.elem "ul" []
          [HNode.elem "div" [("data-id", "i1")] [],
           HNode.elem "div" [("data-id", "i2")] [],
           HNode.elem "div" [("data-id", "i3")] []]])
        [("title", Value.str "x")]) = 0
    ∧ countDataId "i3" (compileB
        [("item", ChildEntry.many
          [ChildComp.mk "i1" (.elem "span" [] []),
           ChildComp.mk "i2" (.elem "span" [] []),
           ChildComp.mk "i3" (.elem "p" [] [])])]
        (fun _ => [HNode.elem "ul" []
          [HNode.elem "div" [("data-id", "i1")] [],
           HNode.elem "div" [("data-id", "i2")] [],
           HNode.elem "div" [("data-id", "i3")] []]])
        [("title", Value.str "x")]) = 0 := by
  have h := c6_sequence_stub_substitution "item"
    [ChildComp.mk "i1" (.elem "span" [] []),
     ChildComp.mk "i2" (.elem "span" [] []),
     ChildComp.mk "i3" (.elem "p" [] [])]
    [("title", Value.str "x")]
    (fun _ => [HNode.elem "ul" []
      [HNode.elem "div" [("data-id", "i1")] [],
       HNode.elem "div" [("data-id", "i2")] [],
       HNode.elem "div" [("data-id", "i3")] []]])
    rfl (List.cons_ne_nil _ _) (by decide)
    (by
      intro c hc
      simp only [List.mem_cons, List.not_mem_nil, or_false] at hc
      rcases hc with rfl | rfl | rfl <;>
        simp [dataIdFree, allNodes, hasNoDataIdAttr])
  have hB := h.2.1
    (by
      intro c hc
      simp only [List.mem_cons, List.not_mem_nil, or_false] at hc
      rcases hc with rfl | rfl | rfl <;>
        refine ⟨?_, ?_⟩ <;>
          simp [countDataId, allNodes, selfHasDataId, onlyStubs, isStub,
            List.countP_cons, List.all_cons])
  exact ⟨h.1,
    hB.1 (ChildComp.mk "i1" (.elem "span" [] [])) (List.Mem.head _),
    hB.1 (ChildComp.mk "i2" (.elem "span" [] []))
      (List.Mem.tail _ (List.Mem.head _)),
    hB.1 (ChildComp.mk "i3" (.elem "p" [] []))
      (List.Mem.tail _ (List.Mem.tail _ (List.Mem.head _)))⟩
